import Mathlib

/-!
Shallow embedding of the `byte_buffer` binary codec
(`src/byte_buffer/serializer.rs` and `src/byte_buffer/deserializer.rs`).

The codec is a serde serializer/deserializer pair.  We embed the serde data
model as an inductive `Value` (one constructor per `serialize_*` entry point
of the source serializer) and the decode-side shape request as an inductive
`Shape` (one constructor per `deserialize_*` entry point of the source
deserializer).  `serialize` is translated method by method from
`serializer.rs`; `deserialize` from `deserializer.rs`, composed with the
standard visitor behaviour of serde-derived impls (e.g. `Option<T>`'s visitor
maps `visit_none` to absence and `visit_some` to a recursive decode).

Machine integers are modelled as `Nat` (unsigned) and `Int` (signed); the
host is taken to be 64-bit little-endian (x86-64), so `usize` serializes via
`serialize_u64` to 8 little-endian bytes and `transmute` to/from byte arrays
is little-endian byte order.  Floats are carried by their bit patterns, which
is exact: the codec only moves bit patterns (`to_bits` / `from_bits`), it
never performs float arithmetic.  Rust panics (out-of-range slice indexing,
`todo!()`) are modelled as explicit `DOut.panics` outcomes, since the claims
distinguish "returns an error" from "panics".
-/

namespace ByteBuffer

/-- Modelled from the spec: the sentinel constant `EOT` is defined in the
`byte_buffer` module root, which is not among the given sources (`use
super::EOT`).  The spec fixes only that it is the single reserved sentinel
byte marking the end of a string's content; the name is the ASCII
End-Of-Transmission character, value 4, which we use here.  No claim's
verdict depends on the particular value. -/
def EOT : Nat := 4

/-- Little-endian bytes of `n`, `w` bytes wide (Rust `transmute` of a
fixed-width unsigned integer into a byte array on a little-endian host). -/
def natToBytesLE : Nat → Nat → List Nat
  | 0, _ => []
  | w + 1, n => n % 256 :: natToBytesLE w (n / 256)

/-- Little-endian interpretation of a byte list as an unsigned integer
(Rust `transmute_copy` of a byte array into an unsigned integer on a
little-endian host). -/
def bytesToNatLE : List Nat → Nat
  | [] => 0
  | b :: bs => b + 256 * bytesToNatLE bs

/-- Two's-complement reading of an unsigned `bits`-wide value as a signed
integer (Rust `transmute_copy` into a signed integer of the same width). -/
def toSigned (bits : Nat) (n : Nat) : Int :=
  if n < 2 ^ (bits - 1) then (n : Int) else (n : Int) - 2 ^ bits

/-- UTF-8 bytes of one Unicode scalar value (Rust `str::as_bytes`
per-character layout). -/
def utf8EncodeChar (c : Nat) : List Nat :=
  if c < 0x80 then [c]
  else if c < 0x800 then [0xC0 + c / 64, 0x80 + c % 64]
  else if c < 0x10000 then [0xE0 + c / 4096, 0x80 + c / 64 % 64, 0x80 + c % 64]
  else [0xF0 + c / 262144, 0x80 + c / 4096 % 64, 0x80 + c / 64 % 64, 0x80 + c % 64]

/-- UTF-8 bytes of a sequence of Unicode scalar values (a Rust `&str` is
exactly such a sequence; `as_bytes` concatenates the per-scalar bytes). -/
def utf8Encode (s : List Nat) : List Nat := (s.map utf8EncodeChar).flatten

/-- Lowest second byte a 3-byte UTF-8 sequence may carry, by leading byte
(`0xE0` forbids overlong encodings). -/
def utf8Lo3 (b0 : Nat) : Nat := if b0 = 0xE0 then 0xA0 else 0x80

/-- Highest second byte a 3-byte UTF-8 sequence may carry, by leading byte
(`0xED` forbids surrogate scalar values). -/
def utf8Hi3 (b0 : Nat) : Nat := if b0 = 0xED then 0x9F else 0xBF

/-- Lowest second byte a 4-byte UTF-8 sequence may carry, by leading byte
(`0xF0` forbids overlong encodings). -/
def utf8Lo4 (b0 : Nat) : Nat := if b0 = 0xF0 then 0x90 else 0x80

/-- Highest second byte a 4-byte UTF-8 sequence may carry, by leading byte
(`0xF4` caps scalar values at `0x10FFFF`). -/
def utf8Hi4 (b0 : Nat) : Nat := if b0 = 0xF4 then 0x8F else 0xBF

mutual

/-- Strict UTF-8 decoding into Unicode scalar values, `none` on any invalid
byte sequence.  Models Rust `std::str::from_utf8`'s validation: overlong
encodings, surrogates, scalar values above `0x10FFFF`, stray continuation
bytes and truncated sequences are all rejected.  Dispatches on the leading
byte's class; the continuation bytes are consumed by one helper per class. -/
def utf8Decode : List Nat → Option (List Nat)
  | [] => some []
  | b0 :: rest =>
    if b0 < 0x80 then (utf8Decode rest).map (b0 :: ·)
    else if 0xC2 ≤ b0 ∧ b0 ≤ 0xDF then utf8Dec2 b0 rest
    else if 0xE0 ≤ b0 ∧ b0 ≤ 0xEF then utf8Dec3 b0 rest
    else if 0xF0 ≤ b0 ∧ b0 ≤ 0xF4 then utf8Dec4 b0 rest
    else none

/-- Continuation of a 2-byte UTF-8 sequence with leading byte `b0`. -/
def utf8Dec2 (b0 : Nat) : List Nat → Option (List Nat)
  | b1 :: r =>
    if 0x80 ≤ b1 ∧ b1 ≤ 0xBF then
      (utf8Decode r).map (((b0 - 0xC0) * 64 + (b1 - 0x80)) :: ·)
    else none
  | [] => none

/-- Continuation of a 3-byte UTF-8 sequence with leading byte `b0`. -/
def utf8Dec3 (b0 : Nat) : List Nat → Option (List Nat)
  | b1 :: b2 :: r =>
    if (utf8Lo3 b0 ≤ b1 ∧ b1 ≤ utf8Hi3 b0) ∧ 0x80 ≤ b2 ∧ b2 ≤ 0xBF then
      (utf8Decode r).map
        (((b0 - 0xE0) * 4096 + (b1 - 0x80) * 64 + (b2 - 0x80)) :: ·)
    else none
  | _ => none

/-- Continuation of a 4-byte UTF-8 sequence with leading byte `b0`. -/
def utf8Dec4 (b0 : Nat) : List Nat → Option (List Nat)
  | b1 :: b2 :: b3 :: r =>
    if (utf8Lo4 b0 ≤ b1 ∧ b1 ≤ utf8Hi4 b0) ∧ (0x80 ≤ b2 ∧ b2 ≤ 0xBF)
        ∧ 0x80 ≤ b3 ∧ b3 ≤ 0xBF then
      (utf8Decode r).map
        (((b0 - 0xF0) * 262144 + (b1 - 0x80) * 4096 + (b2 - 0x80) * 64
          + (b3 - 0x80)) :: ·)
    else none
  | _ => none

end

/-- A Unicode scalar value: what a Rust `char` may hold and what
`char::from_u32` accepts (below `0x110000` and not a surrogate). -/
def ValidScalar (c : Nat) : Prop := c < 0xD800 ∨ (0xE000 ≤ c ∧ c < 0x110000)

instance (c : Nat) : Decidable (ValidScalar c) := by
  unfold ValidScalar; infer_instance

/-- The serde data model, one constructor per entry point of the source
`Serializer`.  `seq` and `map` carry the length *hint* (`Option<usize>`)
serde hands to `serialize_seq` / `serialize_map`; `tupleStruct`,
`tupleVariant` and `structVariant` carry the `len` argument serde passes,
which the source serializer writes (or ignores) independently of the actual
field list. -/
inductive Value where
  | bool (b : Bool)
  | i8 (v : Int)
  | i16 (v : Int)
  | i32 (v : Int)
  | i64 (v : Int)
  | u8 (v : Nat)
  | u16 (v : Nat)
  | u32 (v : Nat)
  | u64 (v : Nat)
  | f32 (bits : Nat)
  | f64 (bits : Nat)
  | char (c : Nat)
  | str (s : List Nat)
  | bytes (bs : List Nat)
  | none
  | some (v : Value)
  | unit
  | unitStruct
  | unitVariant (variantIndex : Nat)
  | newtypeStruct (v : Value)
  | newtypeVariant (variantIndex : Nat) (v : Value)
  | seq (len : Option Nat) (elems : List Value)
  | tuple (elems : List Value)
  | tupleStruct (len : Nat) (fields : List Value)
  | tupleVariant (variantIndex len : Nat) (fields : List Value)
  | map (len : Option Nat) (entries : List (Value × Value))
  | struct (fields : List Value)
  | structVariant (variantIndex len : Nat) (fields : List Value)

/-- The serializer's error enum (`serializer.rs`, `enum Error`). -/
inductive SerError where
  | Custom (msg : String)
  | UnsizedSeq
  | UnsizedMap
deriving DecidableEq

mutual

/-- `impl serde::Serializer for Serializer`, method by method.  Children are
serialized by fresh sub-serializers and their bytes spliced into the parent
buffer (`serialize_single_element`).  The `str` case follows the source's
`[v.as_bytes(), &[EOT]].concat().serialize(self)`: the concatenation is a
`Vec<u8>`, whose serde traversal emits it as a *sequence* — a machine-word
length prefix followed by each byte serialized as a `u8`. -/
def serialize : Value → Except SerError (List Nat)
  | .bool b => .ok [if b then 1 else 0]
  | .i8 v => .ok (natToBytesLE 1 (v.emod (2 ^ 8)).toNat)
  | .i16 v => .ok (natToBytesLE 2 (v.emod (2 ^ 16)).toNat)
  | .i32 v => .ok (natToBytesLE 4 (v.emod (2 ^ 32)).toNat)
  | .i64 v => .ok (natToBytesLE 8 (v.emod (2 ^ 64)).toNat)
  | .u8 v => .ok (natToBytesLE 1 v)
  | .u16 v => .ok (natToBytesLE 2 v)
  | .u32 v => .ok (natToBytesLE 4 v)
  | .u64 v => .ok (natToBytesLE 8 v)
  | .f32 bits => .ok (natToBytesLE 4 bits)
  | .f64 bits => .ok (natToBytesLE 8 bits)
  | .char c => .ok (natToBytesLE 4 c)
  | .str s =>
      let v := utf8Encode s ++ [EOT]
      .ok (natToBytesLE 8 v.length ++ (v.map (fun b => natToBytesLE 1 b)).flatten)
  | .bytes bs => .ok bs
  | .none => .ok [0]
  | .some v =>
      match serialize v with
      | .ok b => .ok (1 :: b)
      | .error e => .error e
  | .unit => .ok []
  | .unitStruct => .ok []
  | .unitVariant idx => .ok (natToBytesLE 4 idx)
  | .newtypeStruct v => serialize v
  | .newtypeVariant idx v =>
      match serialize v with
      | .ok b => .ok (natToBytesLE 4 idx ++ b)
      | .error e => .error e
  | .seq Option.none _ => .error .UnsizedSeq
  | .seq (Option.some len) es =>
      match serializeList es with
      | .ok body => .ok (natToBytesLE 8 len ++ body)
      | .error e => .error e
  | .tuple es => serializeList es
  | .tupleStruct len fs =>
      match serializeList fs with
      | .ok body => .ok (natToBytesLE 8 len ++ body)
      | .error e => .error e
  | .tupleVariant idx len fs =>
      match serializeList fs with
      | .ok body => .ok (natToBytesLE 4 idx ++ natToBytesLE 8 len ++ body)
      | .error e => .error e
  | .map Option.none _ => .error .UnsizedMap
  | .map (Option.some len) ps =>
      match serializePairs ps with
      | .ok body => .ok (natToBytesLE 8 len ++ body)
      | .error e => .error e
  | .struct fs => serializeList fs
  | .structVariant idx _len fs =>
      match serializeList fs with
      | .ok body => .ok (natToBytesLE 4 idx ++ body)
      | .error e => .error e

/-- Serializing a run of container children (`serialize_element` /
`serialize_field` repeatedly, then `end`): each child's bytes are appended
to the accumulated buffer. -/
def serializeList : List Value → Except SerError (List Nat)
  | [] => .ok []
  | v :: vs =>
      match serialize v with
      | .error e => .error e
      | .ok b =>
        match serializeList vs with
        | .error e => .error e
        | .ok bs => .ok (b ++ bs)

/-- Serializing map entries (`serialize_key` then `serialize_value` per
entry, then `end`). -/
def serializePairs : List (Value × Value) → Except SerError (List Nat)
  | [] => .ok []
  | (k, v) :: ps =>
      match serialize k with
      | .error e => .error e
      | .ok kb =>
        match serialize v with
        | .error e => .error e
        | .ok vb =>
          match serializePairs ps with
          | .error e => .error e
          | .ok rest => .ok (kb ++ vb ++ rest)

end

/-- The message categories the deserializer wraps into `Error::Custom` via
serde's default `de::Error` helpers.  In the source these are formatted
display strings; we keep the category and the offending datum instead of
the rendered text. -/
inductive CustomMsg where
  | invalidValue (n : Nat)
  | invalidLength (len : Nat)
  | invalidUtf8
deriving DecidableEq

/-- The deserializer's error enum (`deserializer.rs`, `enum Error`). -/
inductive DeError where
  | Custom (msg : CustomMsg)
  | DeserializeAny
  | WrongDeserializeType
  | EotNotFound
  | EmptyBuffer
deriving DecidableEq

/-- The ways the source deserializer can panic: out-of-range slice indexing
(`self.buffer[SIZE..]` with a buffer shorter than `SIZE`) and `todo!()`
stubs. -/
inductive PanicKind where
  | sliceIndexOutOfRange
  | todoUnimplemented
deriving DecidableEq

/-- Outcome of a decode entry point: a value, a returned error, or a panic.
Panics are modelled explicitly because several claims distinguish returning
an error from aborting. -/
inductive DOut (α : Type) where
  | ok (a : α)
  | error (e : DeError)
  | panics (k : PanicKind)
deriving DecidableEq

/-- `Deserializer::deserialize_integer::<Integer, SIZE, V>`.  The source
first evaluates `self.buffer[SIZE..]` — which panics when the buffer is
shorter than `SIZE` — and rejects a non-empty remainder as
`WrongDeserializeType`; the subsequent `get(0..SIZE)` (whose failure would
be `invalid_length`) can then no longer fail.  The surviving bytes are
transmuted, i.e. read little-endian. -/
def deserialize_integer (size : Nat) (buf : List Nat) : DOut (List Nat) :=
  if buf.length < size then .panics .sliceIndexOutOfRange
  else if buf.drop size ≠ [] then .error .WrongDeserializeType
  else .ok (buf.take size)

/-- `Deserializer::deserialize_str` (the inherent helper): require the last
byte to be `EOT`, else `EotNotFound`; decode everything before it as UTF-8,
wrapping a UTF-8 failure via `de::Error::custom`. -/
def deserialize_str (buf : List Nat) : Except DeError (List Nat) :=
  match buf.getLast? with
  | Option.none => .error .EotNotFound
  | Option.some b =>
    if b ≠ EOT then .error .EotNotFound
    else
      match utf8Decode buf.dropLast with
      | Option.some s => .ok s
      | Option.none => .error (.Custom .invalidUtf8)

/-- Combinator for the fixed-width `deserialize_*` methods: run
`deserialize_integer`, then build the visited value from the little-endian
reading of the bytes. -/
def decodeFixed (size : Nat) (mk : Nat → DOut Value) (buf : List Nat) :
    DOut Value :=
  match deserialize_integer size buf with
  | .ok bs => mk (bytesToNatLE bs)
  | .error e => .error e
  | .panics k => .panics k

/-- The decode-side shape request: one constructor per `deserialize_*`
entry point of the source deserializer (the callback set a caller's visitor
exercises).  Payloads of the composite shapes mirror the extra arguments of
the corresponding methods; the source leaves all of those methods as
`todo!()` stubs, so the payloads are never consulted. -/
inductive Shape where
  | any
  | bool
  | i8
  | i16
  | i32
  | i64
  | u8
  | u16
  | u32
  | u64
  | f32
  | f64
  | char
  | str
  | string
  | bytes
  | byteBuf
  | option (inner : Shape)
  | unit
  | unitStruct
  | newtypeStruct (inner : Shape)
  | seq (elem : Shape)
  | tuple (arity : Nat)
  | tupleStruct (arity : Nat)
  | map (key value : Shape)
  | struct (numFields : Nat)
  | enum (numVariants : Nat)
  | identifier
  | ignoredAny
deriving DecidableEq

/-- `impl serde::Deserializer for Deserializer`, method by method, composed
with the standard visitors of serde-derived impls (booleans visit `Bool`,
`Option<T>` maps `visit_none`/`visit_some` to absence/recursive decode, and
so on).  `deserialize_newtype_struct`, `deserialize_seq`,
`deserialize_tuple`, `deserialize_tuple_struct`, `deserialize_map`,
`deserialize_struct`, `deserialize_enum`, `deserialize_identifier` and
`deserialize_ignored_any` are `todo!()` in the source and therefore panic. -/
def deserialize : Shape → List Nat → DOut Value
  | .any, _ => .error .DeserializeAny
  | .bool, buf =>
    decodeFixed 1 (fun n =>
      if n = 0 then .ok (.bool false)
      else if n = 1 then .ok (.bool true)
      else .error (.Custom (.invalidValue n))) buf
  | .i8, buf => decodeFixed 1 (fun n => .ok (.i8 (toSigned 8 n))) buf
  | .i16, buf => decodeFixed 2 (fun n => .ok (.i16 (toSigned 16 n))) buf
  | .i32, buf => decodeFixed 4 (fun n => .ok (.i32 (toSigned 32 n))) buf
  | .i64, buf => decodeFixed 8 (fun n => .ok (.i64 (toSigned 64 n))) buf
  | .u8, buf => decodeFixed 1 (fun n => .ok (.u8 n)) buf
  | .u16, buf => decodeFixed 2 (fun n => .ok (.u16 n)) buf
  | .u32, buf => decodeFixed 4 (fun n => .ok (.u32 n)) buf
  | .u64, buf => decodeFixed 8 (fun n => .ok (.u64 n)) buf
  | .f32, buf => decodeFixed 4 (fun n => .ok (.f32 n)) buf
  | .f64, buf => decodeFixed 8 (fun n => .ok (.f64 n)) buf
  | .char, buf =>
    decodeFixed 4 (fun n =>
      if ValidScalar n then .ok (.char n)
      else .error (.Custom (.invalidValue n))) buf
  | .str, buf =>
    match deserialize_str buf with
    | .ok s => .ok (.str s)
    | .error e => .error e
  | .string, buf =>
    match deserialize_str buf with
    | .ok s => .ok (.str s)
    | .error e => .error e
  | .bytes, buf => .ok (.bytes buf)
  | .byteBuf, buf => .ok (.bytes buf)
  | .option inner, buf =>
    match buf with
    | [] => .error .EmptyBuffer
    | b :: rest =>
      if b = 0 then .ok .none
      else if b = 1 then
        match deserialize inner rest with
        | .ok v => .ok (.some v)
        | .error e => .error e
        | .panics k => .panics k
      else .error (.Custom (.invalidValue b))
  | .unit, buf => if buf ≠ [] then .error .WrongDeserializeType else .ok .unit
  | .unitStruct, buf =>
    if buf ≠ [] then .error .WrongDeserializeType else .ok .unit
  | .newtypeStruct _, _ => .panics .todoUnimplemented
  | .seq _, _ => .panics .todoUnimplemented
  | .tuple _, _ => .panics .todoUnimplemented
  | .tupleStruct _, _ => .panics .todoUnimplemented
  | .map _ _, _ => .panics .todoUnimplemented
  | .struct _, _ => .panics .todoUnimplemented
  | .enum _, _ => .panics .todoUnimplemented
  | .identifier, _ => .panics .todoUnimplemented
  | .ignoredAny, _ => .panics .todoUnimplemented

mutual

/-- A value contains no sequence or map whose serde length hint is absent:
the spec's "well-formed" encode-side inputs. -/
def sized : Value → Bool
  | .some v => sized v
  | .newtypeStruct v => sized v
  | .newtypeVariant _ v => sized v
  | .seq Option.none _ => false
  | .seq (Option.some _) es => sizedList es
  | .tuple es => sizedList es
  | .tupleStruct _ fs => sizedList fs
  | .tupleVariant _ _ fs => sizedList fs
  | .map Option.none _ => false
  | .map (Option.some _) ps => sizedPairs ps
  | .struct fs => sizedList fs
  | .structVariant _ _ fs => sizedList fs
  | _ => true

/-- All values of a list are `sized`. -/
def sizedList : List Value → Bool
  | [] => true
  | v :: vs => sized v && sizedList vs

/-- All keys and values of a map entry list are `sized`. -/
def sizedPairs : List (Value × Value) → Bool
  | [] => true
  | (k, v) :: ps => sized k && sized v && sizedPairs ps

end

/-- Decoding step for an ASCII byte. -/
theorem utf8Decode_cons_ascii (b0 : Nat) (h : b0 < 0x80) (rest : List Nat) :
    utf8Decode (b0 :: rest) = (utf8Decode rest).map (b0 :: ·) := by
  rw [utf8Decode, if_pos h]

/-- Decoding step for a well-formed 2-byte UTF-8 sequence. -/
theorem utf8Decode_cons2 (b0 b1 : Nat) (h0 : 0xC2 ≤ b0) (h0' : b0 ≤ 0xDF)
    (h1 : 0x80 ≤ b1) (h1' : b1 ≤ 0xBF) (rest : List Nat) :
    utf8Decode (b0 :: b1 :: rest)
      = (utf8Decode rest).map (((b0 - 0xC0) * 64 + (b1 - 0x80)) :: ·) := by
  have ha : ¬ b0 < 0x80 := by omega
  rw [utf8Decode, if_neg ha, if_pos ⟨h0, h0'⟩, utf8Dec2, if_pos ⟨h1, h1'⟩]

/-- Decoding step for a well-formed 3-byte UTF-8 sequence. -/
theorem utf8Decode_cons3 (b0 b1 b2 : Nat) (h0 : 0xE0 ≤ b0) (h0' : b0 ≤ 0xEF)
    (h1 : utf8Lo3 b0 ≤ b1) (h1' : b1 ≤ utf8Hi3 b0)
    (h2 : 0x80 ≤ b2) (h2' : b2 ≤ 0xBF) (rest : List Nat) :
    utf8Decode (b0 :: b1 :: b2 :: rest)
      = (utf8Decode rest).map
          (((b0 - 0xE0) * 4096 + (b1 - 0x80) * 64 + (b2 - 0x80)) :: ·) := by
  have ha : ¬ b0 < 0x80 := by omega
  have hb : ¬ (0xC2 ≤ b0 ∧ b0 ≤ 0xDF) := by omega
  rw [utf8Decode, if_neg ha, if_neg hb, if_pos ⟨h0, h0'⟩, utf8Dec3,
    if_pos ⟨⟨h1, h1'⟩, h2, h2'⟩]

/-- Decoding step for a well-formed 4-byte UTF-8 sequence. -/
theorem utf8Decode_cons4 (b0 b1 b2 b3 : Nat) (h0 : 0xF0 ≤ b0) (h0' : b0 ≤ 0xF4)
    (h1 : utf8Lo4 b0 ≤ b1) (h1' : b1 ≤ utf8Hi4 b0)
    (h2 : 0x80 ≤ b2) (h2' : b2 ≤ 0xBF) (h3 : 0x80 ≤ b3) (h3' : b3 ≤ 0xBF)
    (rest : List Nat) :
    utf8Decode (b0 :: b1 :: b2 :: b3 :: rest)
      = (utf8Decode rest).map
          (((b0 - 0xF0) * 262144 + (b1 - 0x80) * 4096 + (b2 - 0x80) * 64
            + (b3 - 0x80)) :: ·) := by
  have ha : ¬ b0 < 0x80 := by omega
  have hb : ¬ (0xC2 ≤ b0 ∧ b0 ≤ 0xDF) := by omega
  have hc : ¬ (0xE0 ≤ b0 ∧ b0 ≤ 0xEF) := by omega
  rw [utf8Decode, if_neg ha, if_neg hb, if_neg hc, if_pos ⟨h0, h0'⟩, utf8Dec4,
    if_pos ⟨⟨h1, h1'⟩, ⟨h2, h2'⟩, h3, h3'⟩]

/-- Decoding undoes encoding for one valid Unicode scalar value, in front of
any byte tail. -/
theorem utf8Decode_encodeChar (c : Nat) (h : ValidScalar c) (rest : List Nat) :
    utf8Decode (utf8EncodeChar c ++ rest) = (utf8Decode rest).map (c :: ·) := by
  unfold ValidScalar at h
  by_cases h1 : c < 0x80
  · rw [show utf8EncodeChar c = [c] from by simp [utf8EncodeChar, h1]]
    simpa using utf8Decode_cons_ascii c h1 rest
  · by_cases h2 : c < 0x800
    · rw [show utf8EncodeChar c = [0xC0 + c / 64, 0x80 + c % 64] from by
        simp [utf8EncodeChar, h1, h2]]
      rw [List.cons_append, List.cons_append, List.nil_append,
        utf8Decode_cons2 _ _ (by omega) (by omega) (by omega) (by omega)]
      have hc : (0xC0 + c / 64 - 0xC0) * 64 + (0x80 + c % 64 - 0x80) = c := by
        omega
      rw [hc]
    · by_cases h3 : c < 0x10000
      · rw [show utf8EncodeChar c
            = [0xE0 + c / 4096, 0x80 + c / 64 % 64, 0x80 + c % 64] from by
          simp [utf8EncodeChar, h1, h2, h3]]
        rw [List.cons_append, List.cons_append, List.cons_append,
          List.nil_append,
          utf8Decode_cons3 _ _ _ (by omega) (by omega) ?lo ?hi (by omega)
            (by omega)]
        case lo =>
          unfold utf8Lo3
          split
          · next heq => omega
          · omega
        case hi =>
          unfold utf8Hi3
          split
          · next heq => omega
          · omega
        have hc : (0xE0 + c / 4096 - 0xE0) * 4096 + (0x80 + c / 64 % 64 - 0x80) * 64
            + (0x80 + c % 64 - 0x80) = c := by omega
        rw [hc]
      · rw [show utf8EncodeChar c
            = [0xF0 + c / 262144, 0x80 + c / 4096 % 64, 0x80 + c / 64 % 64,
               0x80 + c % 64] from by simp [utf8EncodeChar, h1, h2, h3]]
        rw [List.cons_append, List.cons_append, List.cons_append,
          List.cons_append, List.nil_append,
          utf8Decode_cons4 _ _ _ _ (by omega) (by omega) ?lo ?hi (by omega)
            (by omega) (by omega) (by omega)]
        case lo =>
          unfold utf8Lo4
          split
          · next heq => omega
          · omega
        case hi =>
          unfold utf8Hi4
          split
          · next heq => omega
          · omega
        have hc : (0xF0 + c / 262144 - 0xF0) * 262144
            + (0x80 + c / 4096 % 64 - 0x80) * 4096
            + (0x80 + c / 64 % 64 - 0x80) * 64 + (0x80 + c % 64 - 0x80) = c := by
          omega
        rw [hc]

/-- Strict UTF-8 decoding undoes UTF-8 encoding on any sequence of valid
Unicode scalar values. -/
theorem utf8Decode_utf8Encode (s : List Nat) (h : ∀ c ∈ s, ValidScalar c) :
    utf8Decode (utf8Encode s) = some s := by
  induction s with
  | nil => rfl
  | cons c cs ih =>
    have e : utf8Encode (c :: cs) = utf8EncodeChar c ++ utf8Encode cs := by
      simp [utf8Encode]
    rw [e, utf8Decode_encodeChar c (h c (by simp)) _,
      ih (fun d hd => h d (by simp [hd]))]
    rfl

/-- Container children serialize to the concatenation of the children's own
encodings (the accumulated buffer equals each field's encoding, spliced in
order). -/
theorem serializeList_flatten (fs : List Value) (bss : List (List Nat))
    (h : List.Forall₂ (fun v b => serialize v = Except.ok b) fs bss) :
    serializeList fs = .ok bss.flatten := by
  induction h with
  | nil => rfl
  | cons hv htail ih => simp [serializeList, hv, ih]

mutual

/-- Joint shape of every encode outcome: a `sized` value always encodes
successfully, and an encode failure is always `UnsizedSeq` or `UnsizedMap`. -/
theorem serialize_spec : ∀ v : Value,
    (sized v = true → ∃ bs, serialize v = .ok bs)
    ∧ ∀ e : SerError, serialize v = .error e → e = .UnsizedSeq ∨ e = .UnsizedMap
  | .bool b => ⟨fun _ => ⟨_, rfl⟩, fun e he => by simp [serialize] at he⟩
  | .i8 v => ⟨fun _ => ⟨_, rfl⟩, fun e he => by simp [serialize] at he⟩
  | .i16 v => ⟨fun _ => ⟨_, rfl⟩, fun e he => by simp [serialize] at he⟩
  | .i32 v => ⟨fun _ => ⟨_, rfl⟩, fun e he => by simp [serialize] at he⟩
  | .i64 v => ⟨fun _ => ⟨_, rfl⟩, fun e he => by simp [serialize] at he⟩
  | .u8 v => ⟨fun _ => ⟨_, rfl⟩, fun e he => by simp [serialize] at he⟩
  | .u16 v => ⟨fun _ => ⟨_, rfl⟩, fun e he => by simp [serialize] at he⟩
  | .u32 v => ⟨fun _ => ⟨_, rfl⟩, fun e he => by simp [serialize] at he⟩
  | .u64 v => ⟨fun _ => ⟨_, rfl⟩, fun e he => by simp [serialize] at he⟩
  | .f32 bits => ⟨fun _ => ⟨_, rfl⟩, fun e he => by simp [serialize] at he⟩
  | .f64 bits => ⟨fun _ => ⟨_, rfl⟩, fun e he => by simp [serialize] at he⟩
  | .char c => ⟨fun _ => ⟨_, rfl⟩, fun e he => by simp [serialize] at he⟩
  | .str s => ⟨fun _ => ⟨_, rfl⟩, fun e he => by simp [serialize] at he⟩
  | .bytes bs => ⟨fun _ => ⟨_, rfl⟩, fun e he => by simp [serialize] at he⟩
  | .none => ⟨fun _ => ⟨_, rfl⟩, fun e he => by simp [serialize] at he⟩
  | .unit => ⟨fun _ => ⟨_, rfl⟩, fun e he => by simp [serialize] at he⟩
  | .unitStruct => ⟨fun _ => ⟨_, rfl⟩, fun e he => by simp [serialize] at he⟩
  | .unitVariant idx =>
      ⟨fun _ => ⟨_, rfl⟩, fun e he => by simp [serialize] at he⟩
  | .some v => by
      obtain ⟨vtot, verr⟩ := serialize_spec v
      refine ⟨fun h => ?_, fun e he => ?_⟩
      · obtain ⟨bs, hbs⟩ := vtot (by simpa [sized] using h)
        exact ⟨1 :: bs, by simp [serialize, hbs]⟩
      · cases hv : serialize v with
        | ok b => simp [serialize, hv] at he
        | error e2 =>
          simp [serialize, hv] at he
          subst he
          exact verr _ hv
  | .newtypeStruct v => by
      obtain ⟨vtot, verr⟩ := serialize_spec v
      refine ⟨fun h => ?_, fun e he => ?_⟩
      · obtain ⟨bs, hbs⟩ := vtot (by simpa [sized] using h)
        exact ⟨bs, by simp [serialize, hbs]⟩
      · exact verr e (by simpa [serialize] using he)
  | .newtypeVariant idx v => by
      obtain ⟨vtot, verr⟩ := serialize_spec v
      refine ⟨fun h => ?_, fun e he => ?_⟩
      · obtain ⟨bs, hbs⟩ := vtot (by simpa [sized] using h)
        exact ⟨natToBytesLE 4 idx ++ bs, by simp [serialize, hbs]⟩
      · cases hv : serialize v with
        | ok b => simp [serialize, hv] at he
        | error e2 =>
          simp [serialize, hv] at he
          subst he
          exact verr _ hv
  | .seq Option.none es =>
      ⟨fun h => by simp [sized] at h,
       fun e he => by
        simp [serialize] at he
        subst he
        exact Or.inl rfl⟩
  | .seq (Option.some len) es => by
      obtain ⟨ltot, lerr⟩ := serializeList_spec es
      refine ⟨fun h => ?_, fun e he => ?_⟩
      · obtain ⟨bs, hbs⟩ := ltot (by simpa [sized] using h)
        exact ⟨natToBytesLE 8 len ++ bs, by simp [serialize, hbs]⟩
      · cases hl : serializeList es with
        | ok bs => simp [serialize, hl] at he
        | error e2 =>
          simp [serialize, hl] at he
          subst he
          exact lerr _ hl
  | .tuple es => by
      obtain ⟨ltot, lerr⟩ := serializeList_spec es
      refine ⟨fun h => ?_, fun e he => ?_⟩
      · obtain ⟨bs, hbs⟩ := ltot (by simpa [sized] using h)
        exact ⟨bs, by simp [serialize, hbs]⟩
      · exact lerr e (by simpa [serialize] using he)
  | .tupleStruct len fs => by
      obtain ⟨ltot, lerr⟩ := serializeList_spec fs
      refine ⟨fun h => ?_, fun e he => ?_⟩
      · obtain ⟨bs, hbs⟩ := ltot (by simpa [sized] using h)
        exact ⟨natToBytesLE 8 len ++ bs, by simp [serialize, hbs]⟩
      · cases hl : serializeList fs with
        | ok bs => simp [serialize, hl] at he
        | error e2 =>
          simp [serialize, hl] at he
          subst he
          exact lerr _ hl
  | .tupleVariant idx len fs => by
      obtain ⟨ltot, lerr⟩ := serializeList_spec fs
      refine ⟨fun h => ?_, fun e he => ?_⟩
      · obtain ⟨bs, hbs⟩ := ltot (by simpa [sized] using h)
        exact ⟨natToBytesLE 4 idx ++ (natToBytesLE 8 len ++ bs),
          by simp [serialize, hbs]⟩
      · cases hl : serializeList fs with
        | ok bs => simp [serialize, hl] at he
        | error e2 =>
          simp [serialize, hl] at he
          subst he
          exact lerr _ hl
  | .map Option.none ps =>
      ⟨fun h => by simp [sized] at h,
       fun e he => by
        simp [serialize] at he
        subst he
        exact Or.inr rfl⟩
  | .map (Option.some len) ps => by
      obtain ⟨ptot, perr⟩ := serializePairs_spec ps
      refine ⟨fun h => ?_, fun e he => ?_⟩
      · obtain ⟨bs, hbs⟩ := ptot (by simpa [sized] using h)
        exact ⟨natToBytesLE 8 len ++ bs, by simp [serialize, hbs]⟩
      · cases hp : serializePairs ps with
        | ok bs => simp [serialize, hp] at he
        | error e2 =>
          simp [serialize, hp] at he
          subst he
          exact perr _ hp
  | .struct fs => by
      obtain ⟨ltot, lerr⟩ := serializeList_spec fs
      refine ⟨fun h => ?_, fun e he => ?_⟩
      · obtain ⟨bs, hbs⟩ := ltot (by simpa [sized] using h)
        exact ⟨bs, by simp [serialize, hbs]⟩
      · exact lerr e (by simpa [serialize] using he)
  | .structVariant idx len fs => by
      obtain ⟨ltot, lerr⟩ := serializeList_spec fs
      refine ⟨fun h => ?_, fun e he => ?_⟩
      · obtain ⟨bs, hbs⟩ := ltot (by simpa [sized] using h)
        exact ⟨natToBytesLE 4 idx ++ bs, by simp [serialize, hbs]⟩
      · cases hl : serializeList fs with
        | ok bs => simp [serialize, hl] at he
        | error e2 =>
          simp [serialize, hl] at he
          subst he
          exact lerr _ hl

/-- `serialize_spec`, lifted to runs of container children. -/
theorem serializeList_spec : ∀ vs : List Value,
    (sizedList vs = true → ∃ bs, serializeList vs = .ok bs)
    ∧ ∀ e : SerError, serializeList vs = .error e →
        e = .UnsizedSeq ∨ e = .UnsizedMap
  | [] => ⟨fun _ => ⟨[], rfl⟩, fun e he => by simp [serializeList] at he⟩
  | v :: vs => by
      obtain ⟨vtot, verr⟩ := serialize_spec v
      obtain ⟨ltot, lerr⟩ := serializeList_spec vs
      refine ⟨fun h => ?_, fun e he => ?_⟩
      · simp only [sizedList, Bool.and_eq_true] at h
        obtain ⟨bv, hbv⟩ := vtot h.1
        obtain ⟨bs, hbs⟩ := ltot h.2
        exact ⟨bv ++ bs, by simp [serializeList, hbv, hbs]⟩
      · cases hv : serialize v with
        | error e2 =>
          simp [serializeList, hv] at he
          subst he
          exact verr _ hv
        | ok bv =>
          cases hl : serializeList vs with
          | error e2 =>
            simp [serializeList, hv, hl] at he
            subst he
            exact lerr _ hl
          | ok bs => simp [serializeList, hv, hl] at he

/-- `serialize_spec`, lifted to map entries. -/
theorem serializePairs_spec : ∀ ps : List (Value × Value),
    (sizedPairs ps = true → ∃ bs, serializePairs ps = .ok bs)
    ∧ ∀ e : SerError, serializePairs ps = .error e →
        e = .UnsizedSeq ∨ e = .UnsizedMap
  | [] => ⟨fun _ => ⟨[], rfl⟩, fun e he => by simp [serializePairs] at he⟩
  | (k, v) :: ps => by
      obtain ⟨ktot, kerr⟩ := serialize_spec k
      obtain ⟨vtot, verr⟩ := serialize_spec v
      obtain ⟨ptot, perr⟩ := serializePairs_spec ps
      refine ⟨fun h => ?_, fun e he => ?_⟩
      · simp only [sizedPairs, Bool.and_eq_true] at h
        obtain ⟨bk, hbk⟩ := ktot h.1.1
        obtain ⟨bv, hbv⟩ := vtot h.1.2
        obtain ⟨bs, hbs⟩ := ptot h.2
        exact ⟨bk ++ bv ++ bs, by simp [serializePairs, hbk, hbv, hbs]⟩
      · cases hk : serialize k with
        | error e2 =>
          simp [serializePairs, hk] at he
          subst he
          exact kerr _ hk
        | ok bk =>
          cases hv : serialize v with
          | error e2 =>
            simp [serializePairs, hk, hv] at he
            subst he
            exact verr _ hv
          | ok bv =>
            cases hp : serializePairs ps with
            | error e2 =>
              simp [serializePairs, hk, hv, hp] at he
              subst he
              exact perr _ hp
            | ok bs => simp [serializePairs, hk, hv, hp] at he

end

/-- C1: the spec claims `decode(encode(v), shape_of(v)) = v` for every
primitive kind, every container kind with explicit length and every
tagged-union variant kind.  The code cannot satisfy this for containers or
variants: `deserialize_seq` and `deserialize_enum` are `todo!()` stubs, so
decoding the successfully produced encoding of a known-length sequence, or
of a unit enum variant, panics instead of returning the value. -/
theorem c1_roundtrip_fails_for_containers :
    serialize (.seq (Option.some 1) [.u8 7]) = .ok [1, 0, 0, 0, 0, 0, 0, 0, 7]
    ∧ deserialize (.seq .u8) [1, 0, 0, 0, 0, 0, 0, 0, 7]
        = .panics .todoUnimplemented
    ∧ serialize (.unitVariant 1) = .ok [1, 0, 0, 0]
    ∧ deserialize (.enum 2) [1, 0, 0, 0] = .panics .todoUnimplemented :=
  ⟨rfl, rfl, rfl, rfl⟩

/-- C2: the claim says a wrong-length slice for a fixed-width kind always
yields a shape-mismatch error and never a panic.  A too-long slice is
indeed rejected with `WrongDeserializeType`, but a too-short slice panics:
`deserialize_integer` evaluates `self.buffer[SIZE..]` before any length
check, which is an out-of-range slice index when the buffer is shorter
than `SIZE`. -/
theorem c2_short_input_panics :
    deserialize .u16 [5] = .panics .sliceIndexOutOfRange
    ∧ deserialize .bool [] = .panics .sliceIndexOutOfRange
    ∧ deserialize .u16 [1, 2, 3] = .error .WrongDeserializeType :=
  ⟨rfl, rfl, rfl⟩

/-- C3 (counterexample): a one-field tuple struct holding the byte `7` does
not encode to the bare field concatenation `[7]`: `serialize_tuple_struct`
seeds the buffer with the machine-word field count. -/
theorem c3_counterexample :
    serialize (.tupleStruct 1 [.u8 7]) = .ok [1, 0, 0, 0, 0, 0, 0, 0, 7]
    ∧ serialize (.tupleStruct 1 [.u8 7]) ≠ .ok [7] :=
  ⟨rfl, fun h => absurd (Except.ok.inj h) (by decide)⟩

/-- C3 (amended): a fixed-arity tuple encodes as exactly the concatenation
of each field's encoding with no length prefix, while a tuple-shaped record
(tuple struct) is prefixed with its declared field count encoded as a
machine-word unsigned integer before that same concatenation. -/
theorem c3_amended_tuple_and_tupleStruct (n : Nat) (fs : List Value)
    (bss : List (List Nat))
    (h : List.Forall₂ (fun v b => serialize v = Except.ok b) fs bss) :
    serialize (.tuple fs) = .ok bss.flatten
    ∧ serialize (.tupleStruct n fs) = .ok (natToBytesLE 8 n ++ bss.flatten) := by
  have hl := serializeList_flatten fs bss h
  exact ⟨by simp [serialize, hl], by simp [serialize, hl]⟩

/-- C3 (witness): the amended encoding shapes at a concrete two-field
value list. -/
theorem c3_amended_tuple_and_tupleStruct_witness :
    serialize (.tuple [.u8 7, .bool true]) = .ok [7, 1]
    ∧ serialize (.tupleStruct 2 [.u8 7, .bool true])
        = .ok (natToBytesLE 8 2 ++ [7, 1]) :=
  c3_amended_tuple_and_tupleStruct 2 [.u8 7, .bool true] [[7], [1]]
    (.cons rfl (.cons rfl .nil))

/-- C4 (counterexample): a record-shaped (struct) variant with index `0`,
declared field count `1` and one byte field `7` encodes without any field
count: `serialize_struct_variant` writes only the 4-byte variant index
before the fields, so the output is not index + machine-word count +
fields as claimed. -/
theorem c4_counterexample :
    serialize (.structVariant 0 1 [.u8 7]) = .ok [0, 0, 0, 0, 7]
    ∧ serialize (.structVariant 0 1 [.u8 7])
        ≠ .ok (natToBytesLE 4 0 ++ natToBytesLE 8 1 ++ [7]) :=
  ⟨rfl, fun h => absurd (Except.ok.inj h) (by decide)⟩

/-- C4 (amended): a tuple-shaped variant encodes as the 4-byte variant
index, then the declared field count as a machine-word unsigned integer,
then the field concatenation; a record-shaped (struct) variant encodes as
the 4-byte variant index immediately followed by the field concatenation,
with no field count. -/
theorem c4_amended_variant_encodings (idx n : Nat) (fs : List Value)
    (bss : List (List Nat))
    (h : List.Forall₂ (fun v b => serialize v = Except.ok b) fs bss) :
    serialize (.tupleVariant idx n fs)
      = .ok (natToBytesLE 4 idx ++ (natToBytesLE 8 n ++ bss.flatten))
    ∧ serialize (.structVariant idx n fs)
      = .ok (natToBytesLE 4 idx ++ bss.flatten) := by
  have hl := serializeList_flatten fs bss h
  exact ⟨by simp [serialize, hl], by simp [serialize, hl]⟩

/-- C4 (witness): the amended encoding shapes at a concrete one-field
variant. -/
theorem c4_amended_variant_encodings_witness :
    serialize (.tupleVariant 1 1 [.u8 7])
      = .ok (natToBytesLE 4 1 ++ (natToBytesLE 8 1 ++ [7]))
    ∧ serialize (.structVariant 1 1 [.u8 7]) = .ok (natToBytesLE 4 1 ++ [7]) :=
  c4_amended_variant_encodings 1 1 [.u8 7] [[7]] (.cons rfl .nil)

/-- C5: an absent option encodes to exactly `[0]`; a present option
encodes to `1` followed by the inner encoding; a leading `0` decodes to
absence (remaining bytes belong to the enclosing scope); a leading byte
other than `0` and `1` is an invalid-value error; and an empty slice is an
empty-input error. -/
theorem c5_option_encoding_decoding :
    serialize .none = .ok [0]
    ∧ (∀ (v : Value) (bs : List Nat), serialize v = .ok bs →
        serialize (.some v) = .ok (1 :: bs))
    ∧ (∀ (sh : Shape) (rest : List Nat),
        deserialize (.option sh) (0 :: rest) = .ok .none)
    ∧ (∀ (sh : Shape) (b : Nat) (rest : List Nat), b ≠ 0 → b ≠ 1 →
        deserialize (.option sh) (b :: rest)
          = .error (.Custom (.invalidValue b)))
    ∧ (∀ sh : Shape, deserialize (.option sh) [] = .error .EmptyBuffer) := by
  refine ⟨rfl, fun v bs h => by simp [serialize, h], fun sh rest => rfl,
    fun sh b rest h0 h1 => by simp [deserialize, h0, h1], fun sh => rfl⟩

/-- C5 (witness): the option laws at the spec's own concrete examples. -/
theorem c5_option_encoding_decoding_witness :
    serialize (.some (.u8 7)) = .ok [1, 7]
    ∧ deserialize (.option .u8) [2] = .error (.Custom (.invalidValue 2)) :=
  ⟨c5_option_encoding_decoding.2.1 (.u8 7) [7] rfl,
   c5_option_encoding_decoding.2.2.2.1 .u8 2 [] (by decide) (by decide)⟩

/-- C6: the claim (and the decoder) expect a string to encode to its UTF-8
bytes followed by the sentinel alone, but `serialize_str` serializes the
`Vec<u8>` holding those bytes through serde's sequence traversal, so the
encoding of "abc" carries a machine-word length prefix, and decoding that
buffer back as a string returns the prefix bytes as extra leading
characters rather than "abc".  Only the claim's last part holds: a buffer
whose final byte is not the sentinel is rejected with the
terminator-missing error. -/
theorem c6_string_encoding_diverges :
    serialize (.str [97, 98, 99]) = .ok [4, 0, 0, 0, 0, 0, 0, 0, 97, 98, 99, 4]
    ∧ deserialize .str [4, 0, 0, 0, 0, 0, 0, 0, 97, 98, 99, 4]
        = .ok (.str [4, 0, 0, 0, 0, 0, 0, 0, 97, 98, 99])
    ∧ ∀ (buf : List Nat) (b : Nat), buf.getLast? = Option.some b → b ≠ EOT →
        deserialize .str buf = .error .EotNotFound :=
  ⟨rfl, rfl, fun buf b hl hb => by simp [deserialize, deserialize_str, hl, hb]⟩

/-- C6 (witness): the terminator-missing conjunct at a concrete sentinel-free
buffer. -/
theorem c6_string_encoding_diverges_witness :
    deserialize .str [97] = .error .EotNotFound :=
  c6_string_encoding_diverges.2.2 [97] 97 (by decide) (by decide)

/-- C7: decoding any buffer that does end in the sentinel but whose prefix
is not valid UTF-8 returns the malformed-text error (`Error::Custom`
wrapping the UTF-8 failure) — an error value, not a panic and not a
replacement character. -/
theorem c7_invalid_utf8_rejected (buf : List Nat)
    (hlast : buf.getLast? = Option.some EOT)
    (hbad : utf8Decode buf.dropLast = Option.none) :
    deserialize .str buf = .error (.Custom .invalidUtf8) := by
  simp [deserialize, deserialize_str, hlast, hbad]

/-- C7 (witness): the invalid leading byte `0xFF` before the sentinel. -/
theorem c7_invalid_utf8_rejected_witness :
    deserialize .str [255, 4] = .error (.Custom .invalidUtf8) :=
  c7_invalid_utf8_rejected [255, 4] (by decide) (by decide)

/-- C8: encoding a sequence of unknown length fails with `UnsizedSeq` and a
map of unknown length with `UnsizedMap` (no bytes are produced — the result
is an error, not a buffer); every value free of unknown-length containers
encodes successfully; and an encode failure is never anything but the
unsized-container errors (the custom error exists only for value-supplied
traversal logic, which the data model itself never triggers). -/
theorem c8_encode_error_modes :
    (∀ es, serialize (.seq Option.none es) = .error .UnsizedSeq)
    ∧ (∀ ps, serialize (.map Option.none ps) = .error .UnsizedMap)
    ∧ (∀ v : Value, sized v = true → ∃ bs, serialize v = .ok bs)
    ∧ (∀ (v : Value) (e : SerError), serialize v = .error e →
        e = .UnsizedSeq ∨ e = .UnsizedMap) :=
  ⟨fun _ => rfl, fun _ => rfl,
   fun v => (serialize_spec v).1,
   fun v => (serialize_spec v).2⟩

/-- C8 (witness): the encode error modes at concrete values. -/
theorem c8_encode_error_modes_witness :
    serialize (.seq Option.none [.u8 7]) = .error .UnsizedSeq
    ∧ serialize (.map Option.none [(.u8 1, .bool true)]) = .error .UnsizedMap
    ∧ ∃ bs, serialize (.some (.str [104, 105])) = .ok bs :=
  ⟨c8_encode_error_modes.1 [.u8 7],
   c8_encode_error_modes.2.1 [(.u8 1, .bool true)],
   c8_encode_error_modes.2.2.1 (.some (.str [104, 105])) rfl⟩

/-- C9: `deserialize_any` does fail fast with the unsupported-request error
(`DeserializeAny`), but the composite kinds the decoder does not support —
`deserialize_identifier`, `deserialize_ignored_any`, `deserialize_enum` —
are `todo!()` stubs that panic, aborting the decode call without returning
an error, contrary to the claim. -/
theorem c9_unsupported_requests :
    deserialize .any [201] = .error .DeserializeAny
    ∧ deserialize .identifier [] = .panics .todoUnimplemented
    ∧ deserialize .ignoredAny [] = .panics .todoUnimplemented
    ∧ deserialize (.enum 3) [0, 0, 0, 0] = .panics .todoUnimplemented :=
  ⟨rfl, rfl, rfl, rfl⟩

/-- C10 (counterexample): decoding the top-level encoding of the string
with scalars `[97, 4, 98]` (an interior sentinel byte) does not return the
original string: the encoder's machine-word length prefix survives into the
decoded scalars. -/
theorem c10_counterexample :
    serialize (.str [97, 4, 98]) = .ok [4, 0, 0, 0, 0, 0, 0, 0, 97, 4, 98, 4]
    ∧ deserialize .str [4, 0, 0, 0, 0, 0, 0, 0, 97, 4, 98, 4]
        = .ok (.str [4, 0, 0, 0, 0, 0, 0, 0, 97, 4, 98])
    ∧ ([4, 0, 0, 0, 0, 0, 0, 0, 97, 4, 98] : List Nat) ≠ [97, 4, 98] :=
  ⟨rfl, rfl, by decide⟩

/-- C10 (amended): the decoder itself checks only that the final byte
equals the sentinel and parses everything before it, so for every scalar
sequence `s` — including ones containing the sentinel byte value in
interior positions — decoding the buffer `utf8(s) ++ [EOT]` as a string
returns `s`.  (The full `decode(encode(s))` round trip instead fails
because the encoder prepends a machine-word length prefix; see C6.) -/
theorem c10_amended_decoder_interior_sentinel (s : List Nat)
    (h : ∀ c ∈ s, ValidScalar c) :
    deserialize .str (utf8Encode s ++ [EOT]) = .ok (.str s) := by
  have hdec : utf8Decode (utf8Encode s) = some s := utf8Decode_utf8Encode s h
  simp [deserialize, deserialize_str, List.getLast?_concat,
    List.dropLast_concat, hdec]

/-- C10 (witness): the amended decoder round trip at a string with an
interior sentinel byte. -/
theorem c10_amended_decoder_interior_sentinel_witness :
    deserialize .str (utf8Encode [97, 4, 98] ++ [EOT]) = .ok (.str [97, 4, 98]) :=
  c10_amended_decoder_interior_sentinel [97, 4, 98] (by decide)

end ByteBuffer
